import Mathlib

/-!
Verification model of dripp3r (src/dripp3r.go): a terminal program that
streams GCode lines from a file to a serial port, pacing sends on "ok"
acknowledgements, with an interactive control menu and a hacker mode.

Bytes are modelled as `Nat`, byte strings as `List Nat`, Go channels of
lines as `List (List Nat)` (the sequence of values that pass through them).
-/

namespace Dripp3r

/-- Byte value of a Lean string, for writing the Go byte-literals of the
source (ASCII throughout). -/
def strB (s : String) : List Nat := s.toList.map Char.toNat

/-- Whitespace bytes recognised by `bytes.TrimSpace` on ASCII input
(space, tab, newline, vertical tab, form feed, carriage return). -/
def isSpaceByte (b : Nat) : Bool :=
  b == 32 || b == 9 || b == 10 || b == 11 || b == 12 || b == 13

/-- Comment stripping of `gcodeLines` (dripp3r.go:141-143): truncate the
chunk at the first `;` byte (59), mirroring `s = s[:i]` at the first index. -/
def truncSemi (s : List Nat) : List Nat := s.takeWhile (fun b => b ≠ 59)

/-- Model of `bytes.TrimSpace` (dripp3r.go:144): drop whitespace bytes from
both ends. -/
def trimSpace (s : List Nat) : List Nat :=
  ((s.dropWhile isSpaceByte).reverse.dropWhile isSpaceByte).reverse

/-- Per-chunk cleanup of `gcodeLines` (dripp3r.go:141-144): truncate at
the first `;`, then trim whitespace. -/
def cleanB (l : List Nat) : List Nat := trimSpace (truncSemi l)

/-- Body of the per-chunk processing of `gcodeLines` (dripp3r.go:141-148):
strip the comment, trim whitespace, and yield the chunk unless it became
empty. -/
def cleanLine (s : List Nat) : Option (List Nat) :=
  let t := cleanB s
  if t = [] then none else some t

/-- Chunking performed by repeated `bufio.Reader.ReadBytes('\n')`
(dripp3r.go:137): each chunk runs up to and including a newline byte (10);
a final chunk without a newline is returned as-is; an empty final read
ends the loop (dripp3r.go:138-139). `acc` holds the bytes of the current
chunk, in reverse. -/
def chunksAux : List Nat → List Nat → List (List Nat)
  | [], acc => if acc = [] then [] else [acc.reverse]
  | b :: bs, acc =>
    if b = 10 then (acc.reverse ++ [10]) :: chunksAux bs []
    else chunksAux bs (b :: acc)

/-- All chunks `ReadBytes('\n')` yields on a byte sequence. -/
def readChunks (file : List Nat) : List (List Nat) := chunksAux file []

/-- The Line Source `gcodeLines` (dripp3r.go:128-155): the sequence of
command lines sent on its output channel for a given file content. -/
def gcodeLines (file : List Nat) : List (List Nat) :=
  (readChunks file).filterMap cleanLine

/-- Physical lines of a file: maximal newline-free runs, the newline
terminators themselves excluded; a trailing run without a newline is a
line too. Used only to state the spec's description of the Line Source. -/
def physAux : List Nat → List Nat → List (List Nat)
  | [], acc => if acc = [] then [] else [acc.reverse]
  | b :: bs, acc =>
    if b = 10 then acc.reverse :: physAux bs []
    else physAux bs (b :: acc)

/-- Physical lines of a file. -/
def physicalLines (file : List Nat) : List (List Nat) := physAux file []

/-- Modelled from the spec (the spec's description of the Line Source, for
the refinement claim): the file's physical lines after comment-truncation
and whitespace-trimming, with all resulting empty lines removed, in
original order. -/
def lineSourceSpec (file : List Nat) : List (List Nat) :=
  ((physicalLines file).map cleanB).filter (fun l => l ≠ [])

/-- The global `stop_gcode` byte literal (dripp3r.go:57-62). -/
def stop_gcode : List Nat := strB "M107\nM104 S0\nM140 S0\nG1 Z50\nM84 Z E\n"

/-- The Fixed Sequence Source `stopGCode` (dripp3r.go:352-373): a fresh
`bytes.Buffer` over `stop_gcode` is read by `ReadBytes('\n')`; every chunk
longer than one byte is yielded with its final byte removed
(`ln[:len(ln)-1]`, dripp3r.go:360-362). Each Go call builds a fresh buffer,
so the yielded sequence is this pure function of the literal. -/
def stopGCode : List (List Nat) :=
  (readChunks stop_gcode).filterMap
    (fun ln => if ln.length > 1 then some ln.dropLast else none)

/-- Bytes of the acknowledgement line `"ok"` (dripp3r.go:161). -/
def okBytes : List Nat := strB "ok"

/-- End-of-stream condition of the serial scanner: `scan.Err()` is `nil`
(converted to `io.EOF` at dripp3r.go:169-171) or a genuine read error. -/
inductive SErr
  | eof
  | readFail
deriving DecidableEq, Repr

/-- Model of `serialRecv` (dripp3r.go:157-173) on the remaining transport
lines: scans lines until one equals `"ok"` (completing the block with no
error) or the stream ends (returning the stream's end condition `e`);
empty lines are skipped, every other line is collected in order. Returns
(collected lines, remaining unconsumed lines, error); the remaining lines
stand for the scanner state left for the next call. -/
def serialRecv (e : SErr) : List (List Nat) → List (List Nat) × List (List Nat) × Option SErr
  | [] => ([], [], some e)
  | l :: ls =>
    if l = okBytes then ([], ls, none)
    else if l = [] then serialRecv e ls
    else
      let r := serialRecv e ls
      (l :: r.1, r.2)

/-- The remainder `serialRecv` leaves is never longer than its input, and
is strictly shorter when it completed a block (it consumed through the
`"ok"` line). Stated as a definition so it can justify the recursion of
the reader-loop models below. -/
def serialRecv_drop (e : SErr) :
    ∀ ls : List (List Nat), (serialRecv e ls).2.2 = none →
      (serialRecv e ls).2.1.length < ls.length := by
  intro ls
  induction ls with
  | nil => simp [serialRecv]
  | cons l ls ih =>
    intro h
    by_cases hok : l = okBytes
    · simp [serialRecv, hok]
    · by_cases hemp : l = []
      · simp only [serialRecv, if_neg hok, if_pos hemp] at h ⊢
        exact Nat.lt_succ_of_lt (ih h)
      · simp only [serialRecv, if_neg hok, if_neg hemp] at h ⊢
        exact Nat.lt_succ_of_lt (ih h)

/-- Readiness pulses emitted by the loop of `serialRecvChan`
(dripp3r.go:182-192) after the primer: each completed reply block sends a
`nil` (`none`) pulse and the loop repeats on the remaining lines; a block
ended by stream end sends the error pulse and the loop stops. -/
def recvPulses (e : SErr) (ls : List (List Nat)) : List (Option SErr) :=
  match h : serialRecv e ls with
  | (_, rest, none) => none :: recvPulses e rest
  | (_, _, some er) => [some er]
termination_by ls.length
decreasing_by
  have hd := serialRecv_drop e ls (by rw [h])
  rw [h] at hd
  exact hd

/-- Reply lines printed by `serialRecvChan` (dripp3r.go:186-190): after
each `serialRecv` call its collected lines are printed (the `len(res) > 0`
guard only skips an empty print), then the loop repeats while there was no
error. -/
def recvPrinted (e : SErr) (ls : List (List Nat)) : List (List Nat) :=
  match h : serialRecv e ls with
  | (res, rest, none) => res ++ recvPrinted e rest
  | (res, _, some _) => res
termination_by ls.length
decreasing_by
  have hd := serialRecv_drop e ls (by rw [h])
  rw [h] at hd
  exact hd

/-- Full pulse sequence of `serialRecvChan` (dripp3r.go:175-195): the
primer pulse `out <- nil` (dripp3r.go:181) comes first, before any
transport data is consumed, then the loop's pulses. -/
def serialRecvChan (e : SErr) (ls : List (List Nat)) : List (Option SErr) :=
  none :: recvPulses e ls

/-- Number of `"ok"` lines in a transport line sequence. -/
def okCount (ls : List (List Nat)) : Nat :=
  (ls.filter (fun l => l = okBytes)).length

/-- A reply line the program shows: non-empty and not the bare `"ok"`. -/
def shownLine (l : List Nat) : Bool := !(l = [] : Bool) && !(l = okBytes : Bool)

/-- Result of `controlMenu` (dripp3r.go:65-72, 319-350): the choice the
menu dialog eventually returns to the loop (the `l` option loops inside
the menu and never returns). -/
inductive CtrlChoice
  | ctrlContinue
  | ctrlStop
  | ctrlAbort
  | ctrlHackerMode
deriving DecidableEq, Repr

/-- Which channel the loop-local variable `gcode` currently points at
(dripp3r.go:256, 279, 283): the persistent `d.gcode_file` channel, or a
fresh `stopGCode()` channel of which `pos` lines were already consumed. -/
inductive Feed
  | file
  | stopSeq (pos : Nat)
deriving DecidableEq, Repr

/-- State owned by the control loop `(*dripper).loop` (dripp3r.go:215-223,
249-254): the struct fields `ready` and `hack_queue`, the loop-local
variables `hack_mode` and `hack_queue` (dripp3r.go:253-254 — a distinct
local slice shadowed by nothing and never assigned), the active `gcode`
channel, and how many lines were consumed from the `d.gcode_file` channel
so far. -/
structure DState where
  ready : Bool
  hackMode : Bool
  hackQueue : List (List Nat)
  hackLocal : List (List Nat)
  feed : Feed
  filePos : Nat
deriving DecidableEq, Repr

/-- One arrival the loop's `select` (dripp3r.go:261) can wake on: an
operator-typed line from `d.user_input`, an interrupt whose menu dialog
returns choice `c`, or a readiness pulse from `d.serial_ready` (`err`
true models a non-nil error value; `chOpen` false models a receive from
the closed channel). -/
inductive Event
  | userLine (s : List Nat)
  | sig (c : CtrlChoice)
  | pulse (err : Bool) (chOpen : Bool)
deriving DecidableEq, Repr

/-- How one select iteration ends: continue looping, `break Loop`, or a
runtime panic (out-of-range slice index). -/
inductive Outcome
  | next
  | halt
  | crashed
deriving DecidableEq, Repr

/-- Result of one select iteration: successor state, lines handed to
`d.serial_send` (in order), and how the iteration ended. -/
structure StepRes where
  state : DState
  sent : List (List Nat)
  out : Outcome
deriving DecidableEq, Repr

/-- Receive `line, ok := <-gcode` (dripp3r.go:306): the next value of the
active feed channel, together with the updated feed and file-channel
position. `none` models a closed/exhausted channel (`!ok`). -/
def feedNext (file : List Nat) : Feed → Nat → Option (List Nat × Feed × Nat)
  | .file, p =>
    match (gcodeLines file)[p]? with
    | none => none
    | some ln => some (ln, .file, p + 1)
  | .stopSeq k, p =>
    match stopGCode[k]? with
    | none => none
    | some ln => some (ln, .stopSeq (k + 1), p)

/-- One iteration of the `select` loop (dripp3r.go:259-313).
`userLine`: in hacker mode a ready line is sent at once via `d.send`
(dripp3r.go:264-265, clearing `ready`), otherwise appended to the field
`d.hack_queue` (dripp3r.go:267); outside hacker mode the line is
discarded. `sig`: `hack_mode` is reset, then the menu choice switches the
feed, enters hacker mode, or aborts (dripp3r.go:271-291). `pulse`:
`d.ready` is set (dripp3r.go:293); an error or closed channel breaks the
loop; in hacker mode a non-empty `d.hack_queue` triggers
`d.send([]byte(hack_queue[0]))` — indexing the loop-LOCAL `hack_queue`
slice (dripp3r.go:302), which panics when that local slice is empty;
otherwise the next feed line is pulled and sent, an exhausted feed
breaking the loop (dripp3r.go:305-311). -/
def step (file : List Nat) (s : DState) : Event → StepRes
  | .userLine ln =>
    if s.hackMode then
      if s.ready then ⟨{ s with ready := false }, [ln], .next⟩
      else ⟨{ s with hackQueue := s.hackQueue ++ [ln] }, [], .next⟩
    else ⟨s, [], .next⟩
  | .sig c =>
    let s1 := { s with hackMode := false }
    match c with
    | .ctrlContinue => ⟨{ s1 with feed := .file }, [], .next⟩
    | .ctrlStop => ⟨{ s1 with feed := .stopSeq 0 }, [], .next⟩
    | .ctrlAbort => ⟨s1, [], .halt⟩
    | .ctrlHackerMode => ⟨{ s1 with hackMode := true }, [], .next⟩
  | .pulse err chOpen =>
    let s1 := { s with ready := true }
    if err then ⟨s1, [], .halt⟩
    else if !chOpen then ⟨s1, [], .halt⟩
    else if s1.hackMode then
      if s1.hackQueue.length > 0 then
        match s1.hackLocal[0]? with
        | none => ⟨s1, [], .crashed⟩
        | some ln =>
          ⟨{ s1 with ready := false, hackQueue := s1.hackQueue.drop 1 }, [ln], .next⟩
      else ⟨s1, [], .next⟩
    else
      match feedNext file s1.feed s1.filePos with
      | none => ⟨s1, [], .halt⟩
      | some (ln, f, p) =>
        ⟨{ s1 with ready := false, feed := f, filePos := p }, [ln], .next⟩

/-- Aggregate result of running the loop over a finite arrival sequence:
final state, every line handed to the writer (in order), whether
`close(d.serial_send)` ran and the elapsed time was logged
(dripp3r.go:315-316 — reached only by `break Loop`), and whether the run
panicked instead. -/
structure RunRes where
  state : DState
  sent : List (List Nat)
  writerClosed : Bool
  elapsedReported : Bool
  crashed : Bool
deriving DecidableEq, Repr

/-- Run the loop over a list of arrivals. A run whose arrivals are
exhausted is still blocked in `select`; a `break Loop` executes the
epilogue (dripp3r.go:315-316); a panic skips it. -/
def run (file : List Nat) : DState → List Event → RunRes
  | s, [] => ⟨s, [], false, false, false⟩
  | s, e :: es =>
    match step file s e with
    | ⟨s1, out1, .next⟩ =>
      let r := run file s1 es
      ⟨r.state, out1 ++ r.sent, r.writerClosed, r.elapsedReported, r.crashed⟩
    | ⟨s1, out1, .halt⟩ => ⟨s1, out1, true, true, false⟩
    | ⟨s1, out1, .crashed⟩ => ⟨s1, out1, false, false, true⟩

/-- Loop state at `Start drip.` (dripp3r.go:230-233, 252-257): `ready`
false, not in hacker mode, both queues empty, feed = the file channel. -/
def initState : DState := ⟨false, false, [], [], .file, 0⟩

/-- Readiness Flag value at the instant a send decision is taken inside
one select iteration: in the pulse branch `d.ready = true` has already
executed (dripp3r.go:293), in the other branches it is the incoming
state's flag. -/
def flagAtInstant (s : DState) : Event → Bool
  | .pulse _ _ => true
  | _ => s.ready

/-- Arrival trace exhibiting the hacker-mode dequeue: enter hacker mode,
type one line while not ready, then receive an error-free readiness
pulse. -/
def c1Events : List Event :=
  [.sig .ctrlHackerMode, .userLine (strB "G1 X1"), .pulse false true]

/- ------------------------------------------------------------------ -/
/- Theorems                                                            -/
/- ------------------------------------------------------------------ -/

/-- Appending a newline byte to a chunk does not change its comment
truncation, except possibly keeping the newline at the end. -/
theorem truncSemi_concat_nl (l : List Nat) :
    truncSemi (l ++ [10]) = truncSemi l ∨
      truncSemi (l ++ [10]) = truncSemi l ++ [10] := by
  induction l with
  | nil => right; rfl
  | cons b bs ih =>
    by_cases hb : b = 59
    · left
      simp [truncSemi, List.takeWhile_cons, hb]
    · rcases ih with h | h
      · left
        simp only [truncSemi] at h ⊢
        simp only [decide_not] at h
        simp [List.takeWhile_cons, hb, h]
      · right
        simp only [truncSemi] at h ⊢
        simp only [decide_not] at h
        simp [List.takeWhile_cons, hb, h]

/-- Appending a newline byte does not change whitespace trimming. -/
theorem trimSpace_concat_nl (l : List Nat) :
    trimSpace (l ++ [10]) = trimSpace l := by
  unfold trimSpace
  rw [List.dropWhile_append]
  by_cases h : (l.dropWhile isSpaceByte).isEmpty
  · have h0 : l.dropWhile isSpaceByte = [] := by simpa using h
    simp [h, h0, List.dropWhile_cons, isSpaceByte]
  · simp [h, List.reverse_append, List.dropWhile_cons, isSpaceByte]

/-- Appending a newline byte does not change the cleaned chunk. -/
theorem cleanB_concat_nl (l : List Nat) : cleanB (l ++ [10]) = cleanB l := by
  unfold cleanB
  rcases truncSemi_concat_nl l with h | h
  · rw [h]
  · rw [h, trimSpace_concat_nl]

/-- Skipping empty cleaned chunks via `filterMap cleanLine` is cleaning
every chunk and filtering out the empty results. -/
theorem filterMap_cleanLine (L : List (List Nat)) :
    L.filterMap cleanLine = (L.map cleanB).filter (fun l => l ≠ []) := by
  induction L with
  | nil => rfl
  | cons a L ih =>
    rw [List.filterMap_cons, List.map_cons, List.filter_cons]
    by_cases h : cleanB a = []
    · have hca : cleanLine a = none := by simp [cleanLine, h]
      rw [hca, ih]
      simp [h]
    · have hca : cleanLine a = some (cleanB a) := by simp [cleanLine, h]
      rw [hca, ih]
      simp [h]

/-- Cleaning the `ReadBytes` chunks and cleaning the physical lines give
the same results, chunk by chunk. -/
theorem chunks_phys_cleanB (s : List Nat) :
    ∀ acc : List Nat, (chunksAux s acc).map cleanB = (physAux s acc).map cleanB := by
  induction s with
  | nil => intro acc; rfl
  | cons b bs ih =>
    intro acc
    by_cases hb : b = 10
    · simp only [chunksAux, physAux, if_pos hb, List.map_cons]
      rw [cleanB_concat_nl, ih]
    · simp only [chunksAux, physAux, if_neg hb]
      exact ih _

/-- C2 (confirmed): for every command file, the Line Source yields the
file's physical lines after truncation at the first `;`, whitespace
trimming and removal of lines that became empty, in original order; and
the file `G28 ; home\n\nG1 X10\n` yields exactly `[G28, G1 X10]`. -/
theorem C2_line_source :
    (∀ file : List Nat, gcodeLines file = lineSourceSpec file) ∧
      gcodeLines (strB "G28 ; home\n\nG1 X10\n") = [strB "G28", strB "G1 X10"] := by
  constructor
  · intro file
    unfold gcodeLines lineSourceSpec readChunks physicalLines
    rw [filterMap_cleanLine, chunks_phys_cleanB]
  · decide

/-- Unfolding equation of `chunksAux` at a newline byte. -/
theorem chunksAux_cons_nl (bs acc : List Nat) :
    chunksAux (10 :: bs) acc = (acc.reverse ++ [10]) :: chunksAux bs [] := by
  simp [chunksAux]

/-- Unfolding equation of `chunksAux` at a non-newline byte. -/
theorem chunksAux_cons_other {b : Nat} (hb : ¬ b = 10) (bs acc : List Nat) :
    chunksAux (b :: bs) acc = chunksAux bs (b :: acc) := by
  simp [chunksAux, hb]

/-- Chunking distributes over appending after a newline-terminated part:
the reader finishes all chunks of the first part before chunking the
rest. -/
theorem chunksAux_append_nl (q : List Nat) :
    ∀ rest acc : List Nat,
      chunksAux ((q ++ [10]) ++ rest) acc = chunksAux (q ++ [10]) acc ++ chunksAux rest [] := by
  induction q with
  | nil =>
    intro rest acc
    simp only [List.nil_append, List.cons_append, chunksAux_cons_nl]
    rfl
  | cons b q ih =>
    intro rest acc
    by_cases hb : b = 10
    · subst hb
      rw [List.cons_append, List.cons_append, chunksAux_cons_nl, chunksAux_cons_nl,
        ih rest [], List.cons_append]
    · rw [List.cons_append, List.cons_append, chunksAux_cons_other hb,
        chunksAux_cons_other hb]
      exact ih rest (b :: acc)

/-- A non-empty byte run without a newline is a single chunk. -/
theorem chunksAux_no_nl (l : List Nat) :
    ∀ acc : List Nat, 10 ∉ l → l ≠ [] → chunksAux l acc = [acc.reverse ++ l] := by
  induction l with
  | nil => intro acc _ hne; exact absurd rfl hne
  | cons b bs ih =>
    intro acc h _
    have hb : ¬ b = 10 := by
      intro e
      exact h (by rw [e]; exact List.mem_cons_self _ _)
    simp only [chunksAux, if_neg hb]
    by_cases hbs : bs = []
    · subst hbs
      simp [chunksAux]
    · rw [ih (b :: acc) (fun hm => h (List.mem_cons_of_mem _ hm)) hbs]
      simp

/-- C9 (confirmed): a final physical line not terminated by a newline is
still yielded by the Line Source (after comment truncation and trimming,
when non-empty) before the sequence ends — end-of-input on a non-empty
chunk does not drop the chunk. -/
theorem C9_final_line_kept (pre l : List Nat)
    (hpre : pre = [] ∨ ∃ q, pre = q ++ [10]) (hnl : 10 ∉ l) (hne : l ≠ []) :
    gcodeLines (pre ++ l) = gcodeLines pre ++ (cleanLine l).toList := by
  rcases hpre with h | ⟨q, rfl⟩
  · subst h
    simp only [List.nil_append]
    unfold gcodeLines readChunks
    rw [chunksAux_no_nl l [] hnl hne]
    cases hc : cleanLine l <;> simp [chunksAux, List.filterMap_cons, hc]
  · unfold gcodeLines readChunks
    rw [chunksAux_append_nl q l [], chunksAux_no_nl l [] hnl hne,
      List.filterMap_append]
    have hl : ([l] : List (List Nat)).filterMap cleanLine = (cleanLine l).toList := by
      cases hc : cleanLine l <;> simp [List.filterMap_cons, hc]
    simp only [List.nil_append, List.reverse_nil] at hl ⊢
    rw [hl]

/-- C9 witness: the file `G28\nG1 X10` (no trailing newline) yields the
final line `G1 X10`. -/
theorem C9_final_line_kept_witness :
    gcodeLines (strB "G28\n" ++ strB "G1 X10") =
      gcodeLines (strB "G28\n") ++ (cleanLine (strB "G1 X10")).toList :=
  C9_final_line_kept (strB "G28\n") (strB "G1 X10")
    (Or.inr ⟨strB "G28", by decide⟩) (by decide) (by decide)

/-- C4 (confirmed): the Fixed Sequence Source yields exactly the five
command lines `M107`, `M104 S0`, `M140 S0`, `G1 Z50`, `M84 Z E` in that
order — it is a pure function of the `stop_gcode` literal, built afresh by
every invocation — and every `stop` menu selection makes the active feed a
fresh stop sequence starting at its first line. -/
theorem C4_stop_sequence :
    stopGCode = [strB "M107", strB "M104 S0", strB "M140 S0",
        strB "G1 Z50", strB "M84 Z E"] ∧
      ∀ (file : List Nat) (s : DState),
        (step file s (.sig .ctrlStop)).state.feed = .stopSeq 0 :=
  ⟨by decide, fun _ _ => rfl⟩

/-- C1 (code bug): after entering hacker mode, typing `G1 X1` while the
Readiness Flag is false queues the line in `d.hack_queue`; the next
error-free readiness pulse then evaluates `hack_queue[0]` on the distinct,
always-empty loop-local slice (dripp3r.go:253, 302) and panics instead of
transmitting the queued line. -/
theorem C1_hack_queue_crash :
    (run [] initState c1Events).crashed = true ∧
      (run [] initState c1Events).sent = [] ∧
      (run [] initState c1Events).state.hackQueue = [strB "G1 X1"] := by
  decide

/-- C10 (confirmed): handling an interrupt — whatever choice the menu
returns, including re-entering hacker mode — leaves the Pending Queue
`d.hack_queue` exactly as it was and sends nothing. -/
theorem C10_interrupt_preserves_queue (file : List Nat) (s : DState) (c : CtrlChoice) :
    (step file s (.sig c)).state.hackQueue = s.hackQueue ∧
      (step file s (.sig c)).sent = [] := by
  cases c <;> exact ⟨rfl, rfl⟩

/-- C3 (confirmed): in each select iteration, at most one line is handed
to the writer; a line is handed over only when the Readiness Flag at that
instant is true, and the flag is false immediately afterwards; and the
flag can become true only through a readiness pulse — if no pulse arrived
it can stay true only when it already was true and nothing was sent. -/
theorem C3_one_in_flight (file : List Nat) (s : DState) (e : Event) :
    (step file s e).sent.length ≤ 1 ∧
      ((step file s e).sent ≠ [] →
        flagAtInstant s e = true ∧ (step file s e).state.ready = false) ∧
      ((step file s e).state.ready = true →
        (∃ b c, e = .pulse b c) ∨ (s.ready = true ∧ (step file s e).sent = [])) := by
  cases e with
  | userLine ln =>
    by_cases hm : s.hackMode <;> by_cases hr : s.ready <;>
      simp [step, flagAtInstant, hm, hr]
  | sig c =>
    cases c <;> simp [step, flagAtInstant]
  | pulse err chOpen =>
    refine ⟨?_, ?_, fun _ => Or.inl ⟨err, chOpen, rfl⟩⟩ <;>
    · by_cases herr : err
      · simp [step, herr]
      · by_cases hco : chOpen
        · by_cases hm : s.hackMode
          · by_cases hq : s.hackQueue.length > 0
            · cases hl : s.hackLocal <;>
                simp [step, herr, hco, hm, hq, hl, flagAtInstant]
            · simp [step, herr, hco, hm, hq, flagAtInstant]
          · cases hf : feedNext file s.feed s.filePos with
            | none => simp [step, herr, hco, hm, hf, flagAtInstant]
            | some t =>
              rcases t with ⟨ln, f, p⟩
              simp [step, herr, hco, hm, hf, flagAtInstant]
        · simp [step, herr, hco, flagAtInstant]

/-- C3 witness: in hacker mode with the flag true, a typed line is sent at
once and the flag is false afterwards. -/
theorem C3_one_in_flight_witness :
    (step [] ⟨true, true, [], [], .file, 0⟩ (.userLine [71])).sent ≠ [] ∧
      flagAtInstant ⟨true, true, [], [], .file, 0⟩ (.userLine [71]) = true ∧
      (step [] ⟨true, true, [], [], .file, 0⟩ (.userLine [71])).state.ready = false := by
  refine ⟨by decide, ?_, ?_⟩
  · exact ((C3_one_in_flight [] ⟨true, true, [], [], .file, 0⟩
      (.userLine [71])).2.1 (by decide)).1
  · exact ((C3_one_in_flight [] ⟨true, true, [], [], .file, 0⟩
      (.userLine [71])).2.1 (by decide)).2

/-- C7 (confirmed): a readiness pulse carrying an error, or signalling the
reader channel closed, terminates the loop: nothing is sent (neither now
nor from the later arrivals), the writer's handoff channel is closed, and
the elapsed time is reported. -/
theorem C7_error_pulse_terminates (file : List Nat) (s : DState)
    (err chOpen : Bool) (es : List Event)
    (h : err = true ∨ chOpen = false) :
    (run file s (.pulse err chOpen :: es)).sent = [] ∧
      (run file s (.pulse err chOpen :: es)).writerClosed = true ∧
      (run file s (.pulse err chOpen :: es)).elapsedReported = true := by
  rcases h with h | h
  · subst h
    simp [run, step]
  · subst h
    cases err <;> simp [run, step]

/-- C7 witness: an error pulse in the initial state terminates the run
with nothing sent, the writer closed and the elapsed time reported. -/
theorem C7_error_pulse_terminates_witness :
    (run [] initState [.pulse true true]).sent = [] ∧
      (run [] initState [.pulse true true]).writerClosed = true ∧
      (run [] initState [.pulse true true]).elapsedReported = true :=
  C7_error_pulse_terminates [] initState true true [] (Or.inl rfl)

/-- C8 (confirmed): no select iteration triggered by an interrupt (any
menu choice, so in particular switching to the fixed sequence or to
hacker mode and back to the file feed) changes the file feed's read
position; in every iteration the position either stays put or — exactly
when the streaming pull came from the file feed — advances by one while
sending precisely the line at the old position, so no line is skipped or
repeated. -/
theorem C8_file_position_frame (file : List Nat) (s : DState) (e : Event) :
    ((∃ c, e = Event.sig c) → (step file s e).state.filePos = s.filePos) ∧
      ((step file s e).state.filePos = s.filePos ∨
        (s.hackMode = false ∧ s.feed = Feed.file ∧
          ∃ ln, (gcodeLines file)[s.filePos]? = some ln ∧
            (step file s e).sent = [ln] ∧
            (step file s e).state.filePos = s.filePos + 1)) := by
  constructor
  · rintro ⟨c, rfl⟩
    cases c <;> rfl
  · cases e with
    | userLine ln =>
      by_cases hm : s.hackMode <;> by_cases hr : s.ready <;>
        simp [step, hm, hr]
    | sig c =>
      left
      cases c <;> rfl
    | pulse err chOpen =>
      by_cases herr : err
      · left; simp [step, herr]
      · by_cases hco : chOpen
        · by_cases hm : s.hackMode
          · by_cases hq : s.hackQueue.length > 0
            · cases hl : s.hackLocal <;>
                simp [step, herr, hco, hm, hq, hl]
            · simp [step, herr, hco, hm, hq]
          · cases hfd : s.feed with
            | file =>
              cases hg : (gcodeLines file)[s.filePos]? with
              | none =>
                left
                simp [step, herr, hco, hm, feedNext, hfd, hg]
              | some ln =>
                right
                refine ⟨by simpa using hm, rfl, ln, rfl, ?_, ?_⟩ <;>
                  simp [step, herr, hco, hm, feedNext, hfd, hg]
            | stopSeq k =>
              left
              cases hg : stopGCode[k]? <;>
                simp [step, herr, hco, hm, feedNext, hfd, hg]
        · left; simp [step, herr, hco]

/-- C8 witness: switching to the fixed sequence leaves the file position
unchanged. -/
theorem C8_file_position_frame_witness :
    (step [] initState (Event.sig CtrlChoice.ctrlStop)).state.filePos =
      initState.filePos :=
  (C8_file_position_frame [] initState (Event.sig CtrlChoice.ctrlStop)).1
    ⟨CtrlChoice.ctrlStop, rfl⟩

/-- Unfolding of `recvPulses` when `serialRecv` completed a block. -/
theorem recvPulses_block (e : SErr) (ls res rest : List (List Nat))
    (h : serialRecv e ls = (res, rest, none)) :
    recvPulses e ls = none :: recvPulses e rest := by
  conv_lhs => rw [recvPulses.eq_def]
  rw [h]

/-- Unfolding of `recvPulses` when `serialRecv` hit the end of the
stream. -/
theorem recvPulses_last (e : SErr) (ls res rest : List (List Nat)) (er : SErr)
    (h : serialRecv e ls = (res, rest, some er)) :
    recvPulses e ls = [some er] := by
  conv_lhs => rw [recvPulses.eq_def]
  rw [h]

/-- Unfolding of `recvPrinted` when `serialRecv` completed a block. -/
theorem recvPrinted_block (e : SErr) (ls res rest : List (List Nat))
    (h : serialRecv e ls = (res, rest, none)) :
    recvPrinted e ls = res ++ recvPrinted e rest := by
  conv_lhs => rw [recvPrinted.eq_def]
  rw [h]

/-- Unfolding of `recvPrinted` when `serialRecv` hit the end of the
stream. -/
theorem recvPrinted_last (e : SErr) (ls res rest : List (List Nat)) (er : SErr)
    (h : serialRecv e ls = (res, rest, some er)) :
    recvPrinted e ls = res := by
  conv_lhs => rw [recvPrinted.eq_def]
  rw [h]

/-- Counting the `"ok"` line at the head. -/
theorem okCount_cons (l : List Nat) (ls : List (List Nat)) :
    okCount (l :: ls) = if l = okBytes then okCount ls + 1 else okCount ls := by
  by_cases h : l = okBytes <;> simp [okCount, List.filter_cons, h]

/-- A `serialRecv` call either completes a block — there was an `"ok"`
line, and the remainder holds one `"ok"` fewer — or consumed everything
up to the stream end, reporting exactly the stream's end condition. -/
theorem serialRecv_shape (e : SErr) (ls : List (List Nat)) :
    (serialRecv e ls).2.2 = none ∧ okCount ls = okCount (serialRecv e ls).2.1 + 1 ∨
      (serialRecv e ls).2.2 = some e ∧ okCount ls = 0 ∧ (serialRecv e ls).2.1 = [] := by
  induction ls with
  | nil =>
    right
    exact ⟨rfl, rfl, rfl⟩
  | cons l ls ih =>
    by_cases hok : l = okBytes
    · left
      refine ⟨by simp [serialRecv, hok], ?_⟩
      simp [serialRecv, hok, okCount_cons]
    · by_cases hemp : l = []
      · rcases ih with ⟨h1, h2⟩ | ⟨h1, h2, h3⟩
        · left
          constructor
          · simpa [serialRecv, hok, hemp] using h1
          · simpa [serialRecv, hok, hemp, okCount_cons] using h2
        · right
          refine ⟨?_, ?_, ?_⟩
          · simpa [serialRecv, hok, hemp] using h1
          · simpa [okCount_cons, hok] using h2
          · simpa [serialRecv, hok, hemp] using h3
      · rcases ih with ⟨h1, h2⟩ | ⟨h1, h2, h3⟩
        · left
          constructor
          · simpa [serialRecv, hok, hemp] using h1
          · simpa [serialRecv, hok, hemp, okCount_cons] using h2
        · right
          refine ⟨?_, ?_, ?_⟩
          · simpa [serialRecv, hok, hemp] using h1
          · simpa [okCount_cons, hok] using h2
          · simpa [serialRecv, hok, hemp] using h3

/-- The lines `serialRecv` collects, followed by the shown lines of its
remainder, are exactly the shown lines of its input. -/
theorem serialRecv_shown (e : SErr) (ls : List (List Nat)) :
    (serialRecv e ls).1 ++ (serialRecv e ls).2.1.filter shownLine =
      ls.filter shownLine := by
  induction ls with
  | nil => rfl
  | cons l ls ih =>
    by_cases hok : l = okBytes
    · simp [serialRecv, hok, List.filter_cons, shownLine]
    · by_cases hemp : l = []
      · simpa [serialRecv, hok, hemp, List.filter_cons, shownLine] using ih
      · simpa [serialRecv, hok, hemp, List.filter_cons, shownLine] using ih

/-- Pulse sequence of the reader loop: one error-free pulse per `"ok"`
line, then the stream-end pulse, which is last. Proved by strong induction
on the number of unconsumed transport lines. -/
theorem recvPulses_char (e : SErr) :
    ∀ (n : Nat) (ls : List (List Nat)), ls.length ≤ n →
      recvPulses e ls = List.replicate (okCount ls) none ++ [some e] := by
  intro n
  induction n with
  | zero =>
    intro ls hn
    have h0 : ls = [] := List.eq_nil_of_length_eq_zero (Nat.le_zero.mp hn)
    subst h0
    rw [recvPulses_last e [] [] [] e rfl]
    rfl
  | succ n ih =>
    intro ls hn
    have hsr : serialRecv e ls =
        ((serialRecv e ls).1, (serialRecv e ls).2.1, (serialRecv e ls).2.2) := rfl
    rcases serialRecv_shape e ls with ⟨h1, h2⟩ | ⟨h1, h2, _⟩
    · rw [h1] at hsr
      have hlt := serialRecv_drop e ls h1
      rw [recvPulses_block e ls _ _ hsr,
        ih (serialRecv e ls).2.1 (Nat.le_of_lt_succ (Nat.lt_of_lt_of_le hlt hn)),
        h2, List.replicate_succ]
      rfl
    · rw [h1] at hsr
      rw [recvPulses_last e ls _ _ e hsr, h2]
      rfl

/-- C5 (confirmed): the Transport Reader's first emission is the primer
pulse, carrying no error, emitted whatever the transport holds (so before
any data is consumed); afterwards it emits exactly one error-free pulse
per completed reply block (a line equal to `ok`) and, on end of transport
or read failure, one final pulse carrying the error indicator, after which
it emits nothing more. -/
theorem C5_primer_and_pulses (e : SErr) (ls : List (List Nat)) :
    (serialRecvChan e ls).head? = some none ∧
      serialRecvChan e ls =
        none :: (List.replicate (okCount ls) none ++ [some e]) := by
  refine ⟨rfl, ?_⟩
  unfold serialRecvChan
  rw [recvPulses_char e ls.length ls le_rfl]

/-- Shown reply lines of the reader loop: exactly the non-empty lines
other than `"ok"`, in order. Proved by strong induction on the number of
unconsumed transport lines. -/
theorem recvPrinted_char (e : SErr) :
    ∀ (n : Nat) (ls : List (List Nat)), ls.length ≤ n →
      recvPrinted e ls = ls.filter shownLine := by
  intro n
  induction n with
  | zero =>
    intro ls hn
    have h0 : ls = [] := List.eq_nil_of_length_eq_zero (Nat.le_zero.mp hn)
    subst h0
    rw [recvPrinted_last e [] [] [] e rfl]
    rfl
  | succ n ih =>
    intro ls hn
    have hsr : serialRecv e ls =
        ((serialRecv e ls).1, (serialRecv e ls).2.1, (serialRecv e ls).2.2) := rfl
    rcases serialRecv_shape e ls with ⟨h1, _⟩ | ⟨h1, _, h3⟩
    · rw [h1] at hsr
      have hlt := serialRecv_drop e ls h1
      rw [recvPrinted_block e ls _ _ hsr,
        ih (serialRecv e ls).2.1 (Nat.le_of_lt_succ (Nat.lt_of_lt_of_le hlt hn)),
        serialRecv_shown]
    · rw [h1] at hsr
      rw [recvPrinted_last e ls _ _ e hsr]
      have := serialRecv_shown e ls
      rw [h3] at this
      simpa using this

/-- C6 counterexample: the empty reply line is received from the
transport and differs from `"ok"`, yet nothing at all is shown — so not
every reply line other than `"ok"` is shown. -/
theorem C6_counterexample :
    ([] : List Nat) ∈ ([[], okBytes] : List (List Nat)) ∧
      ([] : List Nat) ≠ okBytes ∧
      recvPrinted SErr.eof [[], okBytes] = [] := by
  refine ⟨by decide, by decide, ?_⟩
  rw [recvPrinted_block SErr.eof [[], okBytes] [] [] (by decide),
    recvPrinted_last SErr.eof [] [] [] SErr.eof rfl]
  rfl

/-- C6 (corrected, amended claim): every NON-EMPTY reply line received
from the transport other than a line exactly equal to `"ok"` is shown on
the terminal, in order, for every sequence of transport lines — the code
silently drops empty reply lines (dripp3r.go:163). -/
theorem C6_nonempty_shown (e : SErr) (ls : List (List Nat)) :
    recvPrinted e ls = ls.filter shownLine :=
  recvPrinted_char e ls.length ls le_rfl

end Dripp3r
